import Mathlib

/-!
Shallow embedding of the CGAL LSCM parameterizer
(`Surface_mesh_parameterization/include/CGAL/LSCM_parameterizer_3.h` and
`Surface_mesh_parameterization/include/CGAL/parameterize.h`).

Scalars (the C++ `NT`, a floating-point number type) are modelled as `ℚ`
with exact arithmetic; `std::sqrt` (an external C library function) is an
explicit function parameter `sqrt : ℚ → ℚ`, so every statement quantifies
over the square-root routine actually supplied.  External collaborators
(OpenNL solver, mesh data structure, border parameterizer, connected
component enumerator, error-code traits) are not part of the sampled
sources; they are modelled from their contracts in the specification and
are marked as such in their doc comments.
-/

namespace LSCM

/-- A 3D vector / point (the C++ `Point_3` / `Vector_3`), componentwise over ℚ. -/
structure Vec3 where
  x : ℚ
  y : ℚ
  z : ℚ
deriving DecidableEq

/-- A 2D point (the C++ `Point_2` / `Vector_2`), componentwise over ℚ. -/
structure Pt2 where
  x : ℚ
  y : ℚ
deriving DecidableEq

/-- Componentwise subtraction of 3D points (C++ `p - q` on `Point_3`). -/
def sub3 (p q : Vec3) : Vec3 := ⟨p.x - q.x, p.y - q.y, p.z - q.z⟩

/-- Scalar (dot) product of 3D vectors (C++ `u * v` on `Vector_3`). -/
def dot3 (u v : Vec3) : ℚ := u.x * v.x + u.y * v.y + u.z * v.z

/-- Cross product of 3D vectors (C++ `CGAL::cross_product`). -/
def cross3 (u v : Vec3) : Vec3 :=
  ⟨u.y * v.z - u.z * v.y, u.z * v.x - u.x * v.z, u.x * v.y - u.y * v.x⟩

/-- Division of a 3D vector by a scalar (C++ `X / X_norm`). -/
def div3 (u : Vec3) (s : ℚ) : Vec3 := ⟨u.x / s, u.y / s, u.z / s⟩

/-- Componentwise subtraction of 2D points (C++ `z1 - z0` on `Point_2`). -/
def sub2 (p q : Pt2) : Pt2 := ⟨p.x - q.x, p.y - q.y⟩

/-- Embedding of `LSCM_parameterizer_3::project_triangle` (source lines 311–342):
computes the coordinates of the vertices of a triangle in a local 2D
orthonormal basis of the triangle's plane.  The `sqrt` routine is a
parameter; each normalization is guarded against a zero norm exactly as in
the source (`if(X_norm != 0.0) X = X / X_norm;`). -/
def project_triangle (sqrt : ℚ → ℚ) (p0 p1 p2 : Vec3) : Pt2 × Pt2 × Pt2 :=
  let X0 := sub3 p1 p0
  let Xnorm := sqrt (dot3 X0 X0)
  let X := if Xnorm = 0 then X0 else div3 X0 Xnorm
  let Z0 := cross3 X (sub3 p2 p0)
  let Znorm := sqrt (dot3 Z0 Z0)
  let Z := if Znorm = 0 then Z0 else div3 Z0 Znorm
  let Y := cross3 Z X
  let x1 := sqrt (dot3 (sub3 p1 p0) (sub3 p1 p0))
  let x2 := dot3 (sub3 p2 p0) X
  let y2 := dot3 (sub3 p2 p0) Y
  (⟨0, 0⟩, ⟨x1, 0⟩, ⟨x2, y2⟩)

/-- Spec-side definition (for the refinement comparison in C2): the norm of a
3D vector, written as the spec writes `‖v‖`, i.e. the square root of the
scalar product of `v` with itself. -/
def norm3 (sqrt : ℚ → ℚ) (v : Vec3) : ℚ := sqrt (dot3 v v)

/-- Spec-side definition (for the refinement comparison in C2): `normalize(v)`
with the degenerate-triangle guard of spec §4.1, leaving the vector
unnormalized when its norm is zero. -/
def specNormalize (sqrt : ℚ → ℚ) (v : Vec3) : Vec3 :=
  if norm3 sqrt v = 0 then v else div3 v (norm3 sqrt v)

/-- A vector whose scalar product with itself vanishes is the zero vector
(exact-arithmetic fact used for the degenerate guards of C2). -/
lemma dot3_self_eq_zero {v : Vec3} (h : dot3 v v = 0) : v = ⟨0, 0, 0⟩ := by
  obtain ⟨x, y, z⟩ := v
  simp only [dot3] at h
  have hx : x * x = 0 := le_antisymm
    (by nlinarith [mul_self_nonneg x, mul_self_nonneg y, mul_self_nonneg z])
    (mul_self_nonneg x)
  have hy : y * y = 0 := le_antisymm
    (by nlinarith [mul_self_nonneg x, mul_self_nonneg y, mul_self_nonneg z])
    (mul_self_nonneg y)
  have hz : z * z = 0 := le_antisymm
    (by nlinarith [mul_self_nonneg x, mul_self_nonneg y, mul_self_nonneg z])
    (mul_self_nonneg z)
  simp only [Vec3.mk.injEq]
  exact ⟨mul_self_eq_zero.mp hx, mul_self_eq_zero.mp hy, mul_self_eq_zero.mp hz⟩

/-- The scalar product of a vector with itself is nonnegative. -/
lemma dot3_self_nonneg (v : Vec3) : 0 ≤ dot3 v v := by
  obtain ⟨x, y, z⟩ := v
  simp only [dot3]
  nlinarith [mul_self_nonneg x, mul_self_nonneg y, mul_self_nonneg z]

/-- Modelled from the spec: one unknown of the external sparse least-squares
solver (§6 contract: `variable(i).set_value(v)`, `variable(i).lock()`,
`variable(i).value()`), holding a value and a locked flag. -/
structure LSVar where
  value : ℚ
  locked : Bool
deriving DecidableEq

/-- Modelled from the spec: the state of the external sparse least-squares
solver (§6 contract `construct(size)`, `set_least_squares`, row-building
calls).  `rows` are the committed equation rows, each a sparse list of
(unknown-index, coefficient) pairs; `current` is the row being built
between `begin_row` and `end_row`. -/
structure Solver where
  size : ℕ
  vars : ℕ → LSVar
  leastSquares : Bool
  rows : List (List (ℕ × ℚ))
  current : List (ℕ × ℚ)

/-- Modelled from the spec: solver construction with a given number of scalar
unknowns; all unknowns start with value 0 and unlocked, no rows. -/
def Solver.construct (n : ℕ) : Solver := ⟨n, fun _ => ⟨0, false⟩, false, [], []⟩

/-- Modelled from the spec: `set_least_squares(b)`. -/
def Solver.set_least_squares (s : Solver) (b : Bool) : Solver :=
  { s with leastSquares := b }

/-- Modelled from the spec: `variable(i).set_value(q)` — updates the value of
unknown `i`, leaving its locked flag unchanged. -/
def Solver.set_value (s : Solver) (i : ℕ) (q : ℚ) : Solver :=
  { s with vars := fun j => if j = i then ⟨q, (s.vars i).locked⟩ else s.vars j }

/-- Modelled from the spec: `variable(i).lock()` — marks unknown `i` as a
fixed constant, leaving its value unchanged. -/
def Solver.lock (s : Solver) (i : ℕ) : Solver :=
  { s with vars := fun j => if j = i then ⟨(s.vars i).value, true⟩ else s.vars j }

/-- Modelled from the spec: `begin_system()` (no observable state change in
the §6 contract). -/
def Solver.begin_system (s : Solver) : Solver := s

/-- Modelled from the spec: `end_system()` (no observable state change in the
§6 contract). -/
def Solver.end_system (s : Solver) : Solver := s

/-- Modelled from the spec: `begin_row()` — starts a fresh equation row. -/
def Solver.begin_row (s : Solver) : Solver := { s with current := [] }

/-- Modelled from the spec: `add_coefficient(i, a)` — appends the pair
(unknown-index, coefficient) to the row being built. -/
def Solver.add_coefficient (s : Solver) (i : ℕ) (a : ℚ) : Solver :=
  { s with current := s.current ++ [(i, a)] }

/-- Modelled from the spec: `end_row()` — commits the row being built to the
system. -/
def Solver.end_row (s : Solver) : Solver :=
  { s with rows := s.rows ++ [s.current], current := [] }

/-- Modelled from the spec: the error codes of the parameterizer traits used
by the sampled sources (§7: border-parameterization failure, cannot-solve,
plus `OK`; `ERROR_WRONG_PARAMETER` stands for the remaining codes). -/
inductive ErrorCode where
  | OK
  | ERROR_BORDER_TOO_SHORT
  | ERROR_CANNOT_SOLVE_LINEAR_SYSTEM
  | ERROR_WRONG_PARAMETER
deriving DecidableEq

/-- Modelled from the spec: the external half-edge mesh, read through the
FaceGraph contract used by the sampled sources — `num_vertices`,
`vertices(mesh)` as an iteration list, `halfedge(facet, mesh)`,
`next(h, mesh)`, `target(h, mesh)`, and the vertex-point property map.
Vertices, halfedges and faces are natural-number descriptors. -/
structure MeshModel where
  nbVertices : ℕ
  vertexList : List ℕ
  faceHalfedge : ℕ → ℕ
  next : ℕ → ℕ
  target : ℕ → ℕ
  point : ℕ → Vec3

/-- View of the three vertices of a face, in the order the source derives
them (`v0 = target(halfedge(facet))`, then twice `next`/`target`). -/
def faceVerts (mesh : MeshModel) (facet : ℕ) : ℕ × ℕ × ℕ :=
  let h0 := mesh.faceHalfedge facet
  (mesh.target h0, mesh.target (mesh.next h0), mesh.target (mesh.next (mesh.next h0)))

/-- Embedding of `LSCM_parameterizer_3::setup_triangle_relations` (source
lines 353–434): derives the triangle's vertices by halfedge navigation,
projects them into the local basis, and appends the real and imaginary
LSCM rows to the solver, returning `OK`. -/
def setup_triangle_relations (sqrt : ℚ → ℚ) (solver : Solver) (mesh : MeshModel)
    (facet : ℕ) (vimap : ℕ → ℕ) : Solver × ErrorCode :=
  let h0 := mesh.faceHalfedge facet
  let v0 := mesh.target h0
  let h1 := mesh.next h0
  let v1 := mesh.target h1
  let h2 := mesh.next h1
  let v2 := mesh.target h2
  let id0 := vimap v0
  let id1 := vimap v1
  let id2 := vimap v2
  let p0 := mesh.point v0
  let p1 := mesh.point v1
  let p2 := mesh.point v2
  let zs := project_triangle sqrt p0 p1 p2
  let z01 := sub2 zs.2.1 zs.1
  let z02 := sub2 zs.2.2 zs.1
  let a := z01.x
  let b := z01.y
  let c := z02.x
  let d := z02.y
  let u0_id := 2 * id0
  let v0_id := 2 * id0 + 1
  let u1_id := 2 * id1
  let v1_id := 2 * id1 + 1
  let u2_id := 2 * id2
  let v2_id := 2 * id2 + 1
  let s1 := ((((((solver.begin_row).add_coefficient u0_id (-a + c)).add_coefficient
      v0_id (b - d)).add_coefficient u1_id (-c)).add_coefficient
      v1_id d).add_coefficient u2_id a).end_row
  let s2 := ((((((s1.begin_row).add_coefficient u0_id (-b + d)).add_coefficient
      v0_id (-a + c)).add_coefficient u1_id (-d)).add_coefficient
      v1_id (-c)).add_coefficient v2_id a).end_row
  (s2, ErrorCode.OK)

/-- One iteration of the vertex loop of
`LSCM_parameterizer_3::initialize_system_from_mesh_border` (source lines
255–273): write the vertex's current UV into the unknown slots `2·index`
and `2·index + 1`, then lock both slots when the vertex is pinned. -/
def initStep (uvmap : ℕ → Pt2) (vimap : ℕ → ℕ) (vpmap : ℕ → Bool)
    (s : Solver) (v : ℕ) : Solver :=
  let index := vimap v
  let uv := uvmap v
  let s1 := (s.set_value (2 * index) uv.x).set_value (2 * index + 1) uv.y
  if vpmap v then (s1.lock (2 * index)).lock (2 * index + 1) else s1

/-- Embedding of `LSCM_parameterizer_3::initialize_system_from_mesh_border`
(source lines 248–274): the loop `BOOST_FOREACH(vertex_descriptor v,
vertices(mesh))` over the whole mesh. -/
def initialize_system_from_mesh_border (solver : Solver) (mesh : MeshModel)
    (uvmap : ℕ → Pt2) (vimap : ℕ → ℕ) (vpmap : ℕ → Bool) : Solver :=
  mesh.vertexList.foldl (initStep uvmap vimap vpmap) solver

/-- The solver as allocated by `parameterize` (source lines 195–196):
constructed with `2 * nbVertices` unknowns, then least-squares mode
enabled. -/
def solverAllocated (mesh : MeshModel) : Solver :=
  (Solver.construct (2 * mesh.nbVertices)).set_least_squares true

/-- The solver state entering the per-triangle assembly loop of
`parameterize` (source lines 195–203): allocation, border initialization,
then `begin_system()`. -/
def systemBeforeAssembly (mesh : MeshModel) (uvmap : ℕ → Pt2)
    (vimap : ℕ → ℕ) (vpmap : ℕ → Bool) : Solver :=
  (initialize_system_from_mesh_border (solverAllocated mesh) mesh uvmap vimap vpmap).begin_system

/-- The per-face assembly loop of `parameterize` (source lines 212–217):
run `setup_triangle_relations` on each face of the connected component,
returning early with the first non-`OK` status. -/
def assembleAll (sqrt : ℚ → ℚ) (mesh : MeshModel) (vimap : ℕ → ℕ) :
    Solver → List ℕ → Solver × ErrorCode
  | s, [] => (s, ErrorCode.OK)
  | s, f :: fs =>
    let r := setup_triangle_relations sqrt s mesh f vimap
    if r.2 = ErrorCode.OK then assembleAll sqrt mesh vimap r.1 fs else r

/-- The write-back loop of `parameterize` (source lines 231–236): for each
vertex of the enumerated component, overwrite its UV map entry with the
solved pair read from slots `2·index` and `2·index + 1`. -/
def writeBackUV (uv : ℕ → Pt2) (vimap : ℕ → ℕ) (vals : ℕ → ℚ)
    (ccvertices : List ℕ) : ℕ → Pt2 :=
  ccvertices.foldl
    (fun m vd => fun w => if w = vd then ⟨vals (2 * vimap vd), vals (2 * vimap vd + 1)⟩ else m w)
    uv

/-- Modelled from the spec: the outcome of the external border
parameterization strategy (§6 contract) — its status and the UV /
pinned-flag maps as the strategy leaves them. -/
structure BorderOutcome where
  status : ErrorCode
  uv : ℕ → Pt2
  pinned : ℕ → Bool

/-- Embedding of `LSCM_parameterizer_3::parameterize` (source lines 173–238).
State-passing rendering of the property-map mutations: the border
parameterizer is an abstract strategy transforming the UV/pinned maps
(§6 contract); the connected-component enumerator's outputs `ccfaces` and
`ccvertices` are parameters (§6 contract); the solver's `solve()` is an
abstract oracle returning `none` on failure and the solved unknown values
on success.  Returns the error code together with the UV map the caller
observes after the call. -/
def parameterize (sqrt : ℚ → ℚ) (mesh : MeshModel)
    (borderParam : (ℕ → Pt2) → (ℕ → Bool) → BorderOutcome)
    (solveOracle : Solver → Option (ℕ → ℚ))
    (ccfaces : List ℕ) (ccvertices : List ℕ)
    (uvmap : ℕ → Pt2) (vimap : ℕ → ℕ) (vpmap : ℕ → Bool) :
    ErrorCode × (ℕ → Pt2) :=
  let b := borderParam uvmap vpmap
  if b.status ≠ ErrorCode.OK then (b.status, b.uv)
  else
    let s0 := systemBeforeAssembly mesh b.uv vimap b.pinned
    let r := assembleAll sqrt mesh vimap s0 ccfaces
    if r.2 ≠ ErrorCode.OK then (r.2, b.uv)
    else
      match solveOracle r.1.end_system with
      | none => (ErrorCode.ERROR_CANNOT_SOLVE_LINEAR_SYSTEM, b.uv)
      | some vals => (ErrorCode.OK, writeBackUV b.uv vimap vals ccvertices)

/-- Embedding of `internal::Bool_property_map::get` (parameterize.h lines
52–55): membership in the backing set, modelled as a list. -/
def bpm_get (s : List ℕ) (k : ℕ) : Bool := decide (k ∈ s)

/-- Embedding of `internal::Bool_property_map::put` (parameterize.h lines
57–64): insert on `true`, erase on `false`. -/
def bpm_put (s : List ℕ) (k : ℕ) (v : Bool) : List ℕ :=
  if v then (if k ∈ s then s else k :: s) else s.erase k

/-- State of the `Parameterization::Vertices` functor (parameterize.h lines
78–100): the vertex → index map being built and the next index. -/
structure VertState where
  map : ℕ → Option ℕ
  index : ℕ

/-- One vertex step of the `Parameterization::Vertices` functor
(parameterize.h lines 87–94): `map->insert(make_pair(vd,1))`; only when
the vertex is a new element is its value set to `index++`. -/
def vertStep (s : VertState) (vd : ℕ) : VertState :=
  match s.map vd with
  | some _ => s
  | none => ⟨fun w => if w = vd then some s.index else s.map w, s.index + 1⟩

/-- One face application of the `Parameterization::Vertices` functor
(parameterize.h lines 85–95): iterate over the vertices around the face.
The external `vertices_around_face` range is the face's vertex list. -/
def vertFace (s : VertState) (vl : List ℕ) : VertState := vl.foldl vertStep s

/-- The whole index-building pass (parameterize.h lines 144–146): the
connected-component enumerator feeds each component face to the functor in
traversal order; a face is given by its vertex list. -/
def vertRun (s : VertState) (faces : List (List ℕ)) : VertState :=
  faces.foldl vertFace s

/-- The vertex index map built by the free function `parameterize` before
delegating (parameterize.h lines 140–146), starting from an empty map and
index 0. -/
def buildIndices (faces : List (List ℕ)) : VertState :=
  vertRun ⟨fun _ => none, 0⟩ faces

/-- Embedding of the free function `parameterize` (parameterize.h lines
132–148): build the component vertex index map, create an empty set `vs`
backing the pinned-flag `Bool_property_map`, and delegate to the
parameterizer.  `ccFaceVerts` is the enumerator's face stream (each face
as its vertex list) feeding the `Vertices` functor. -/
def free_parameterize (sqrt : ℚ → ℚ) (mesh : MeshModel)
    (borderParam : (ℕ → Pt2) → (ℕ → Bool) → BorderOutcome)
    (solveOracle : Solver → Option (ℕ → ℚ))
    (ccFaceVerts : List (List ℕ)) (ccfaces : List ℕ) (ccvertices : List ℕ)
    (uvm : ℕ → Pt2) : ErrorCode × (ℕ → Pt2) :=
  let indices := buildIndices ccFaceVerts
  let vs : List ℕ := []
  parameterize sqrt mesh borderParam solveOracle ccfaces ccvertices uvm
    (fun v => (indices.map v).getD 0) (fun v => bpm_get vs v)

/-- Spec-side helper for C10: the distinct vertices of a stream in order of
first encounter, extending an already-collected prefix `P`. -/
def firstSeenFrom (P : List ℕ) (L : List ℕ) : List ℕ :=
  L.foldl (fun acc v => if v ∈ acc then acc else acc ++ [v]) P

/-- Spec-side helper for C10: the position of the first occurrence of `v` in
a list, `none` when absent. -/
def posIn : List ℕ → ℕ → Option ℕ
  | [], _ => none
  | a :: l, v => if v = a then some 0 else (posIn l v).map (· + 1)

/-- Spec-side composite for C2: the local x-axis `X = normalize(p1 − p0)`. -/
def specX (sqrt : ℚ → ℚ) (p0 p1 : Vec3) : Vec3 := specNormalize sqrt (sub3 p1 p0)

/-- Spec-side composite for C2: `Z = normalize(X × (p2 − p0))`. -/
def specZ (sqrt : ℚ → ℚ) (p0 p1 p2 : Vec3) : Vec3 :=
  specNormalize sqrt (cross3 (specX sqrt p0 p1) (sub3 p2 p0))

/-- Spec-side composite for C2: `Y = Z × X`. -/
def specY (sqrt : ℚ → ℚ) (p0 p1 p2 : Vec3) : Vec3 :=
  cross3 (specZ sqrt p0 p1 p2) (specX sqrt p0 p1)

/-- The first projected point is the origin. -/
lemma project_triangle_z0 (sqrt : ℚ → ℚ) (p0 p1 p2 : Vec3) :
    (project_triangle sqrt p0 p1 p2).1 = ⟨0, 0⟩ := rfl

/-- The second projected point lies on the local x-axis. -/
lemma project_triangle_z1_y (sqrt : ℚ → ℚ) (p0 p1 p2 : Vec3) :
    (project_triangle sqrt p0 p1 p2).2.1.y = 0 := rfl

/-- Claim C7: for every input triangle (degenerate or not) and every square
root routine, the local basis produced by `project_triangle` satisfies
`z0 = (0,0)`, `z1.y = 0` and `z1.x = ‖p1 − p0‖`, so the quantity checked
by the assertion `b == 0.0` in `setup_triangle_relations` — the
y-component of `z1 − z0` — is `0` on every call and the assertion branch
is unreachable. -/
theorem project_triangle_basis_invariant (sqrt : ℚ → ℚ) (p0 p1 p2 : Vec3) :
    (project_triangle sqrt p0 p1 p2).1 = ⟨0, 0⟩ ∧
    (project_triangle sqrt p0 p1 p2).2.1.y = 0 ∧
    (project_triangle sqrt p0 p1 p2).2.1.x = norm3 sqrt (sub3 p1 p0) ∧
    (sub2 (project_triangle sqrt p0 p1 p2).2.1 (project_triangle sqrt p0 p1 p2).1).y = 0 := by
  refine ⟨rfl, rfl, rfl, ?_⟩
  simp [sub2, project_triangle_z0, project_triangle_z1_y]

/-- Claim C2: for every three input points, `project_triangle` returns
`z0 = (0,0)`, `z1 = (‖p1 − p0‖, 0)` and
`z2 = ((p2 − p0)·X, (p2 − p0)·Y)` with `X` the normalization of
`p1 − p0`, `Z` the normalized cross product `X × (p2 − p0)` and
`Y = Z × X`; when `‖p1 − p0‖ = 0` or the cross-product norm vanishes, the
corresponding vector is left unnormalized and is in fact the zero vector.
The hypothesis pins the square-root routine down to vanishing exactly on
zero (true of the real square root on the nonnegative inputs it receives
here). -/
theorem project_triangle_spec (sqrt : ℚ → ℚ)
    (hsqrt : ∀ q : ℚ, 0 ≤ q → (sqrt q = 0 ↔ q = 0)) (p0 p1 p2 : Vec3) :
    project_triangle sqrt p0 p1 p2 =
      (⟨0, 0⟩, ⟨norm3 sqrt (sub3 p1 p0), 0⟩,
       ⟨dot3 (sub3 p2 p0) (specX sqrt p0 p1), dot3 (sub3 p2 p0) (specY sqrt p0 p1 p2)⟩) ∧
    (norm3 sqrt (sub3 p1 p0) = 0 →
       specX sqrt p0 p1 = sub3 p1 p0 ∧ sub3 p1 p0 = ⟨0, 0, 0⟩) ∧
    (norm3 sqrt (cross3 (specX sqrt p0 p1) (sub3 p2 p0)) = 0 →
       specZ sqrt p0 p1 p2 = cross3 (specX sqrt p0 p1) (sub3 p2 p0) ∧
       cross3 (specX sqrt p0 p1) (sub3 p2 p0) = ⟨0, 0, 0⟩) := by
  refine ⟨rfl, ?_, ?_⟩
  · intro h
    have hd : dot3 (sub3 p1 p0) (sub3 p1 p0) = 0 :=
      (hsqrt _ (dot3_self_nonneg _)).mp h
    exact ⟨by simp [specX, specNormalize, h], dot3_self_eq_zero hd⟩
  · intro h
    have hd : dot3 (cross3 (specX sqrt p0 p1) (sub3 p2 p0))
        (cross3 (specX sqrt p0 p1) (sub3 p2 p0)) = 0 :=
      (hsqrt _ (dot3_self_nonneg _)).mp h
    exact ⟨by simp [specZ, specNormalize, h], dot3_self_eq_zero hd⟩

/-- The b-coefficient of the assembler — the y-component of `z1 − z0` — is
zero on every call (both y-components are the literal constant 0). -/
lemma sub2_project_y_eq_zero (sqrt : ℚ → ℚ) (p0 p1 p2 : Vec3) :
    (sub2 (project_triangle sqrt p0 p1 p2).2.1 (project_triangle sqrt p0 p1 p2).1).y = 0 := by
  simp [sub2, project_triangle_z0, project_triangle_z1_y]

/-- View of the source's `id0` (index of `target(halfedge(facet))`). -/
def triId0 (mesh : MeshModel) (facet : ℕ) (vimap : ℕ → ℕ) : ℕ :=
  vimap (mesh.target (mesh.faceHalfedge facet))

/-- View of the source's `id1` (index of `target(next(halfedge(facet)))`). -/
def triId1 (mesh : MeshModel) (facet : ℕ) (vimap : ℕ → ℕ) : ℕ :=
  vimap (mesh.target (mesh.next (mesh.faceHalfedge facet)))

/-- View of the source's `id2`. -/
def triId2 (mesh : MeshModel) (facet : ℕ) (vimap : ℕ → ℕ) : ℕ :=
  vimap (mesh.target (mesh.next (mesh.next (mesh.faceHalfedge facet))))

/-- View of the local basis of the face's triangle, as computed inside
`setup_triangle_relations`. -/
def triZ (sqrt : ℚ → ℚ) (mesh : MeshModel) (facet : ℕ) : Pt2 × Pt2 × Pt2 :=
  project_triangle sqrt
    (mesh.point (mesh.target (mesh.faceHalfedge facet)))
    (mesh.point (mesh.target (mesh.next (mesh.faceHalfedge facet))))
    (mesh.point (mesh.target (mesh.next (mesh.next (mesh.faceHalfedge facet)))))

/-- View of the source's `a` — the x-component of `z1 − z0`. -/
def triA (sqrt : ℚ → ℚ) (mesh : MeshModel) (facet : ℕ) : ℚ :=
  (sub2 (triZ sqrt mesh facet).2.1 (triZ sqrt mesh facet).1).x

/-- View of the source's `c` — the x-component of `z2 − z0`. -/
def triC (sqrt : ℚ → ℚ) (mesh : MeshModel) (facet : ℕ) : ℚ :=
  (sub2 (triZ sqrt mesh facet).2.2 (triZ sqrt mesh facet).1).x

/-- View of the source's `d` — the y-component of `z2 − z0`. -/
def triD (sqrt : ℚ → ℚ) (mesh : MeshModel) (facet : ℕ) : ℚ :=
  (sub2 (triZ sqrt mesh facet).2.2 (triZ sqrt mesh facet).1).y

/-- The exact rows appended by `setup_triangle_relations`: the real row and
the imaginary row, with the `b` contributions already evaluated to zero. -/
lemma setup_rows_eq (sqrt : ℚ → ℚ) (solver : Solver) (mesh : MeshModel)
    (facet : ℕ) (vimap : ℕ → ℕ) :
    (setup_triangle_relations sqrt solver mesh facet vimap).1.rows =
      solver.rows ++
        [[(2 * triId0 mesh facet vimap, -triA sqrt mesh facet + triC sqrt mesh facet),
          (2 * triId0 mesh facet vimap + 1, -triD sqrt mesh facet),
          (2 * triId1 mesh facet vimap, -triC sqrt mesh facet),
          (2 * triId1 mesh facet vimap + 1, triD sqrt mesh facet),
          (2 * triId2 mesh facet vimap, triA sqrt mesh facet)],
         [(2 * triId0 mesh facet vimap, triD sqrt mesh facet),
          (2 * triId0 mesh facet vimap + 1, -triA sqrt mesh facet + triC sqrt mesh facet),
          (2 * triId1 mesh facet vimap, -triD sqrt mesh facet),
          (2 * triId1 mesh facet vimap + 1, -triC sqrt mesh facet),
          (2 * triId2 mesh facet vimap + 1, triA sqrt mesh facet)]] := by
  simp [setup_triangle_relations, Solver.begin_row, Solver.add_coefficient,
    Solver.end_row, triId0, triId1, triId2, triA, triC, triD, triZ,
    sub2_project_y_eq_zero, sub_eq_add_neg]

/-- Dropping one more element than the length of the left part of an append
with a two-element right part leaves the last element. -/
lemma drop_succ_append_two {α : Type} (l : List α) (a b : α) :
    (l ++ [a, b]).drop (l.length + 1) = [b] := by
  rw [show l ++ [a, b] = (l ++ [a]) ++ [b] by simp, List.drop_left' (by simp)]

/-- Claim C6: for every triangle, including degenerate ones, a call to
`setup_triangle_relations` appends exactly two rows to the shared system
and returns the `OK` status; it never returns an error due to triangle
degeneracy (the statement quantifies over all meshes, faces and square
root routines, with no non-degeneracy assumption). -/
theorem setup_triangle_relations_total (sqrt : ℚ → ℚ) (solver : Solver)
    (mesh : MeshModel) (facet : ℕ) (vimap : ℕ → ℕ) :
    (setup_triangle_relations sqrt solver mesh facet vimap).2 = ErrorCode.OK ∧
    ∃ r1 r2, (setup_triangle_relations sqrt solver mesh facet vimap).1.rows =
      solver.rows ++ [r1, r2] :=
  ⟨rfl, _, _, setup_rows_eq sqrt solver mesh facet vimap⟩

/-- Claim C1: the two rows appended by `setup_triangle_relations` carry
exactly the coefficients the spec lists — with `(a,b) = z1 − z0`,
`(c,d) = z2 − z0` and `b = 0`, the real row sets `u(id0) ← −a+c`,
`v(id0) ← −d`, `u(id1) ← −c`, `v(id1) ← d`, `u(id2) ← a`; the imaginary
row sets `u(id0) ← d`, `v(id0) ← −a+c`, `u(id1) ← −d`, `v(id1) ← −c`,
`v(id2) ← a`; no slot outside `2·id` / `2·id + 1` of the three vertex
indices receives a coefficient, and in particular `u(id2)` receives none
in the imaginary row when the indices are distinct. -/
theorem setup_rows_coefficients (sqrt : ℚ → ℚ) (solver : Solver)
    (mesh : MeshModel) (facet : ℕ) (vimap : ℕ → ℕ) :
    ((setup_triangle_relations sqrt solver mesh facet vimap).1.rows =
      solver.rows ++
        [[(2 * triId0 mesh facet vimap, -triA sqrt mesh facet + triC sqrt mesh facet),
          (2 * triId0 mesh facet vimap + 1, -triD sqrt mesh facet),
          (2 * triId1 mesh facet vimap, -triC sqrt mesh facet),
          (2 * triId1 mesh facet vimap + 1, triD sqrt mesh facet),
          (2 * triId2 mesh facet vimap, triA sqrt mesh facet)],
         [(2 * triId0 mesh facet vimap, triD sqrt mesh facet),
          (2 * triId0 mesh facet vimap + 1, -triA sqrt mesh facet + triC sqrt mesh facet),
          (2 * triId1 mesh facet vimap, -triD sqrt mesh facet),
          (2 * triId1 mesh facet vimap + 1, -triC sqrt mesh facet),
          (2 * triId2 mesh facet vimap + 1, triA sqrt mesh facet)]]) ∧
    (∀ r ∈ (setup_triangle_relations sqrt solver mesh facet vimap).1.rows.drop
        solver.rows.length,
      ∀ pr ∈ r,
        pr.1 = 2 * triId0 mesh facet vimap ∨ pr.1 = 2 * triId0 mesh facet vimap + 1 ∨
        pr.1 = 2 * triId1 mesh facet vimap ∨ pr.1 = 2 * triId1 mesh facet vimap + 1 ∨
        pr.1 = 2 * triId2 mesh facet vimap ∨ pr.1 = 2 * triId2 mesh facet vimap + 1) ∧
    (triId2 mesh facet vimap ≠ triId0 mesh facet vimap →
     triId2 mesh facet vimap ≠ triId1 mesh facet vimap →
     ∀ q : ℚ, ∀ r ∈ (setup_triangle_relations sqrt solver mesh facet vimap).1.rows.drop
        (solver.rows.length + 1),
       (2 * triId2 mesh facet vimap, q) ∉ r) := by
  refine ⟨setup_rows_eq sqrt solver mesh facet vimap, ?_, ?_⟩
  · rw [setup_rows_eq sqrt solver mesh facet vimap, List.drop_append_of_le_length le_rfl]
    simp only [List.drop_length, List.nil_append, List.mem_cons, List.not_mem_nil, or_false]
    rintro r (rfl | rfl) pr hpr <;>
      simp only [List.mem_cons, List.not_mem_nil, or_false] at hpr <;>
      rcases hpr with rfl | rfl | rfl | rfl | rfl <;> tauto
  · intro h0 h1 q r hr hmem
    rw [setup_rows_eq sqrt solver mesh facet vimap, drop_succ_append_two] at hr
    simp only [List.mem_cons, List.not_mem_nil, or_false] at hr
    subst hr
    simp only [List.mem_cons, List.not_mem_nil, or_false, Prod.mk.injEq] at hmem
    rcases hmem with ⟨h, -⟩ | ⟨h, -⟩ | ⟨h, -⟩ | ⟨h, -⟩ | ⟨h, -⟩ <;> omega

/-- The initializer step for vertex `w` leaves every unknown slot other than
`2·index(w)` and `2·index(w)+1` unchanged. -/
lemma initStep_vars_other (uvmap : ℕ → Pt2) (vimap : ℕ → ℕ) (vpmap : ℕ → Bool)
    (s : Solver) (w : ℕ) (j : ℕ) (hj : j ≠ 2 * vimap w) (hj1 : j ≠ 2 * vimap w + 1) :
    (initStep uvmap vimap vpmap s w).vars j = s.vars j := by
  cases hvp : vpmap w <;>
    simp [initStep, Solver.set_value, Solver.lock, hvp, hj, hj1]

/-- Folding the initializer over vertices whose indices all differ from
`index(v)` leaves the two slots of `v` unchanged. -/
lemma initFold_vars_untouched (uvmap : ℕ → Pt2) (vimap : ℕ → ℕ) (vpmap : ℕ → Bool)
    (L : List ℕ) (s : Solver) (v : ℕ) (hL : vimap v ∉ L.map vimap) :
    (L.foldl (initStep uvmap vimap vpmap) s).vars (2 * vimap v) = s.vars (2 * vimap v) ∧
    (L.foldl (initStep uvmap vimap vpmap) s).vars (2 * vimap v + 1) = s.vars (2 * vimap v + 1) := by
  induction L generalizing s with
  | nil => exact ⟨rfl, rfl⟩
  | cons w L ih =>
    simp only [List.map_cons, List.mem_cons, not_or] at hL
    obtain ⟨hw, hL⟩ := hL
    rw [List.foldl_cons]
    have h0 := initStep_vars_other uvmap vimap vpmap s w (2 * vimap v)
      (by omega) (by omega)
    have h1 := initStep_vars_other uvmap vimap vpmap s w (2 * vimap v + 1)
      (by omega) (by omega)
    obtain ⟨ih0, ih1⟩ := ih (initStep uvmap vimap vpmap s w) hL
    exact ⟨ih0.trans h0, ih1.trans h1⟩

/-- The initializer step for vertex `v` writes its UV into its two slots and
sets their locked flag to the pinned flag, provided the slots were
unlocked before. -/
lemma initStep_vars_self (uvmap : ℕ → Pt2) (vimap : ℕ → ℕ) (vpmap : ℕ → Bool)
    (s : Solver) (v : ℕ)
    (hu : (s.vars (2 * vimap v)).locked = false)
    (hv1 : (s.vars (2 * vimap v + 1)).locked = false) :
    (initStep uvmap vimap vpmap s v).vars (2 * vimap v) = ⟨(uvmap v).x, vpmap v⟩ ∧
    (initStep uvmap vimap vpmap s v).vars (2 * vimap v + 1) = ⟨(uvmap v).y, vpmap v⟩ := by
  cases hvp : vpmap v <;>
    constructor <;>
    simp [initStep, Solver.set_value, Solver.lock, hvp, hu, hv1,
      show 2 * vimap v ≠ 2 * vimap v + 1 by omega,
      show 2 * vimap v + 1 ≠ 2 * vimap v by omega]

/-- Folding the initializer over a vertex list with pairwise distinct
indices gives every listed vertex the values and locks of its own step. -/
lemma initFold_spec (uvmap : ℕ → Pt2) (vimap : ℕ → ℕ) (vpmap : ℕ → Bool)
    (L : List ℕ) (s : Solver) (hnd : (L.map vimap).Nodup) (v : ℕ) (hv : v ∈ L)
    (hu : (s.vars (2 * vimap v)).locked = false)
    (hv1 : (s.vars (2 * vimap v + 1)).locked = false) :
    (L.foldl (initStep uvmap vimap vpmap) s).vars (2 * vimap v) = ⟨(uvmap v).x, vpmap v⟩ ∧
    (L.foldl (initStep uvmap vimap vpmap) s).vars (2 * vimap v + 1) = ⟨(uvmap v).y, vpmap v⟩ := by
  induction L generalizing s with
  | nil => cases hv
  | cons w L ih =>
    simp only [List.map_cons, List.nodup_cons] at hnd
    obtain ⟨hwL, hnd⟩ := hnd
    rw [List.foldl_cons]
    rcases List.mem_cons.mp hv with rfl | hvL
    · obtain ⟨h0, h1⟩ := initStep_vars_self uvmap vimap vpmap s v hu hv1
      obtain ⟨u0, u1⟩ := initFold_vars_untouched uvmap vimap vpmap L
        (initStep uvmap vimap vpmap s v) v hwL
      exact ⟨u0.trans h0, u1.trans h1⟩
    · have hne : vimap w ≠ vimap v := fun h => hwL (h ▸ List.mem_map_of_mem vimap hvL)
      have h0 := initStep_vars_other uvmap vimap vpmap s w (2 * vimap v)
        (by omega) (by omega)
      have h1 := initStep_vars_other uvmap vimap vpmap s w (2 * vimap v + 1)
        (by omega) (by omega)
      exact ih (initStep uvmap vimap vpmap s w) hnd hvL
        (by rw [h0]; exact hu) (by rw [h1]; exact hv1)

/-- Claim C5: `initialize_system_from_mesh_border` visits every vertex of the
whole mesh; for each vertex it writes the vertex's current UV value into
unknown slots `2·index(v)` and `2·index(v)+1`, and it locks both slots
exactly when the vertex's pinned flag is true, leaving the slots of
unpinned vertices free.  The hypothesis is the spec's vertex-index
invariant (injective indices over the visited vertices). -/
theorem initialize_system_border_spec (mesh : MeshModel) (uvmap : ℕ → Pt2)
    (vimap : ℕ → ℕ) (vpmap : ℕ → Bool)
    (hnd : (mesh.vertexList.map vimap).Nodup) :
    ∀ v ∈ mesh.vertexList,
      ((initialize_system_from_mesh_border (solverAllocated mesh) mesh uvmap vimap vpmap).vars
          (2 * vimap v)).value = (uvmap v).x ∧
      ((initialize_system_from_mesh_border (solverAllocated mesh) mesh uvmap vimap vpmap).vars
          (2 * vimap v + 1)).value = (uvmap v).y ∧
      ((initialize_system_from_mesh_border (solverAllocated mesh) mesh uvmap vimap vpmap).vars
          (2 * vimap v)).locked = vpmap v ∧
      ((initialize_system_from_mesh_border (solverAllocated mesh) mesh uvmap vimap vpmap).vars
          (2 * vimap v + 1)).locked = vpmap v := by
  intro v hv
  obtain ⟨h0, h1⟩ := initFold_spec uvmap vimap vpmap mesh.vertexList
    (solverAllocated mesh) hnd v hv rfl rfl
  rw [initialize_system_from_mesh_border, h0, h1]
  exact ⟨rfl, rfl, rfl, rfl⟩

/-- The initializer only touches unknown values and locks: system size,
least-squares mode, committed rows and the row under construction are
preserved by the whole vertex loop. -/
lemma initFold_preserves (uvmap : ℕ → Pt2) (vimap : ℕ → ℕ) (vpmap : ℕ → Bool)
    (L : List ℕ) (s : Solver) :
    (L.foldl (initStep uvmap vimap vpmap) s).size = s.size ∧
    (L.foldl (initStep uvmap vimap vpmap) s).leastSquares = s.leastSquares ∧
    (L.foldl (initStep uvmap vimap vpmap) s).rows = s.rows ∧
    (L.foldl (initStep uvmap vimap vpmap) s).current = s.current := by
  induction L generalizing s with
  | nil => exact ⟨rfl, rfl, rfl, rfl⟩
  | cons w L ih =>
    rw [List.foldl_cons]
    obtain ⟨i1, i2, i3, i4⟩ := ih (initStep uvmap vimap vpmap s w)
    have hstep : (initStep uvmap vimap vpmap s w).size = s.size ∧
        (initStep uvmap vimap vpmap s w).leastSquares = s.leastSquares ∧
        (initStep uvmap vimap vpmap s w).rows = s.rows ∧
        (initStep uvmap vimap vpmap s w).current = s.current := by
      cases hvp : vpmap w <;>
        simp [initStep, Solver.set_value, Solver.lock, hvp]
    exact ⟨i1.trans hstep.1, i2.trans hstep.2.1, i3.trans hstep.2.2.1,
      i4.trans hstep.2.2.2⟩

/-- The initializer step writes the u-coordinate of the vertex's UV into the
even slot `2·index` and the v-coordinate into the odd slot `2·index + 1`,
whatever the incoming solver state. -/
lemma initStep_values (uvmap : ℕ → Pt2) (vimap : ℕ → ℕ) (vpmap : ℕ → Bool)
    (s : Solver) (v : ℕ) :
    ((initStep uvmap vimap vpmap s v).vars (2 * vimap v)).value = (uvmap v).x ∧
    ((initStep uvmap vimap vpmap s v).vars (2 * vimap v + 1)).value = (uvmap v).y := by
  cases hvp : vpmap v <;>
    constructor <;>
    simp [initStep, Solver.set_value, Solver.lock, hvp,
      show 2 * vimap v ≠ 2 * vimap v + 1 by omega,
      show 2 * vimap v + 1 ≠ 2 * vimap v by omega]

/-- Claim C8: on the transition from border pinning to system assembly,
`parameterize` allocates the least-squares system with exactly
`2 · nbVertices` scalar unknowns and enables least-squares mode before any
row is assembled: the solver state entering the per-triangle loop has the
allocated size, least-squares mode on, and no rows (committed or under
construction); and the unknown-slot convention is `2·i` for `u_i`
(the x-coordinate) and `2·i + 1` for `v_i` (the y-coordinate), as
witnessed by the initializer's writes. -/
theorem system_allocation_spec (mesh : MeshModel) (uvmap : ℕ → Pt2)
    (vimap : ℕ → ℕ) (vpmap : ℕ → Bool) :
    (solverAllocated mesh).size = 2 * mesh.nbVertices ∧
    (solverAllocated mesh).leastSquares = true ∧
    (solverAllocated mesh).rows = [] ∧
    (systemBeforeAssembly mesh uvmap vimap vpmap).size = 2 * mesh.nbVertices ∧
    (systemBeforeAssembly mesh uvmap vimap vpmap).leastSquares = true ∧
    (systemBeforeAssembly mesh uvmap vimap vpmap).rows = [] ∧
    (systemBeforeAssembly mesh uvmap vimap vpmap).current = [] ∧
    (∀ s v, ((initStep uvmap vimap vpmap s v).vars (2 * vimap v)).value = (uvmap v).x ∧
      ((initStep uvmap vimap vpmap s v).vars (2 * vimap v + 1)).value = (uvmap v).y) := by
  obtain ⟨p1, p2, p3, p4⟩ := initFold_preserves uvmap vimap vpmap mesh.vertexList
    (solverAllocated mesh)
  refine ⟨rfl, rfl, rfl, ?_, ?_, ?_, ?_, fun s v => initStep_values uvmap vimap vpmap s v⟩ <;>
    simp only [systemBeforeAssembly, Solver.begin_system,
      initialize_system_from_mesh_border, p1, p2, p3, p4] <;> rfl

/-- The per-face assembly loop always reports `OK` (each
`setup_triangle_relations` call does). -/
lemma assembleAll_ok (sqrt : ℚ → ℚ) (mesh : MeshModel) (vimap : ℕ → ℕ)
    (fs : List ℕ) : ∀ s, (assembleAll sqrt mesh vimap s fs).2 = ErrorCode.OK := by
  induction fs with
  | nil => intro s; rfl
  | cons f fs ih =>
    intro s
    have hr : (setup_triangle_relations sqrt s mesh f vimap).2 = ErrorCode.OK := rfl
    simp only [assembleAll, hr, if_pos]
    exact ih _

/-- A vertex outside the write-back list keeps its incoming UV entry. -/
lemma writeBackUV_not_mem (uv : ℕ → Pt2) (vimap : ℕ → ℕ) (vals : ℕ → ℚ)
    (L : List ℕ) (v : ℕ) (hv : v ∉ L) :
    writeBackUV uv vimap vals L v = uv v := by
  induction L generalizing uv with
  | nil => rfl
  | cons w L ih =>
    simp only [List.mem_cons, not_or] at hv
    rw [writeBackUV, List.foldl_cons]
    have := ih (fun w2 => if w2 = w then ⟨vals (2 * vimap w), vals (2 * vimap w + 1)⟩ else uv w2)
      hv.2
    rw [writeBackUV] at this
    rw [this]
    simp [hv.1]

/-- A vertex in the write-back list ends with the solved pair read from its
two unknown slots. -/
lemma writeBackUV_mem (uv : ℕ → Pt2) (vimap : ℕ → ℕ) (vals : ℕ → ℚ)
    (L : List ℕ) (v : ℕ) (hv : v ∈ L) :
    writeBackUV uv vimap vals L v = ⟨vals (2 * vimap v), vals (2 * vimap v + 1)⟩ := by
  induction L generalizing uv with
  | nil => cases hv
  | cons w L ih =>
    rw [writeBackUV, List.foldl_cons]
    by_cases hvL : v ∈ L
    · have := ih (fun w2 => if w2 = w then ⟨vals (2 * vimap w), vals (2 * vimap w + 1)⟩ else uv w2)
        hvL
      rw [writeBackUV] at this
      rw [this]
    · have hvw : v = w := by
        rcases List.mem_cons.mp hv with h | h
        · exact h
        · exact absurd h hvL
      subst hvw
      have hrest := writeBackUV_not_mem
        (fun w2 => if w2 = v then ⟨vals (2 * vimap v), vals (2 * vimap v + 1)⟩ else uv w2)
        vimap vals L v hvL
      rw [writeBackUV] at hrest
      rw [hrest]
      simp

/-- Claim C3: whenever `parameterize` returns a non-OK error code — the
border parameterizer failing, a per-triangle assembly failure (which the
loop checks, though assembly always reports OK), or `solve()` failing
(reported as the cannot-solve error) — it returns that specific error
immediately, and the orchestrator itself performs no UV write-back: on
every error path the observable UV map is exactly what the border
strategy left, and UV values are written only on the fully successful
path after `solve()` succeeds. -/
theorem parameterize_error_paths (sqrt : ℚ → ℚ) (mesh : MeshModel)
    (borderParam : (ℕ → Pt2) → (ℕ → Bool) → BorderOutcome)
    (solveOracle : Solver → Option (ℕ → ℚ))
    (ccfaces : List ℕ) (ccvertices : List ℕ)
    (uvmap : ℕ → Pt2) (vimap : ℕ → ℕ) (vpmap : ℕ → Bool) :
    ((borderParam uvmap vpmap).status ≠ ErrorCode.OK →
      parameterize sqrt mesh borderParam solveOracle ccfaces ccvertices uvmap vimap vpmap =
        ((borderParam uvmap vpmap).status, (borderParam uvmap vpmap).uv)) ∧
    ((borderParam uvmap vpmap).status = ErrorCode.OK →
      solveOracle ((assembleAll sqrt mesh vimap
          (systemBeforeAssembly mesh (borderParam uvmap vpmap).uv vimap
            (borderParam uvmap vpmap).pinned) ccfaces).1.end_system) = none →
      parameterize sqrt mesh borderParam solveOracle ccfaces ccvertices uvmap vimap vpmap =
        (ErrorCode.ERROR_CANNOT_SOLVE_LINEAR_SYSTEM, (borderParam uvmap vpmap).uv)) ∧
    ((parameterize sqrt mesh borderParam solveOracle ccfaces ccvertices uvmap vimap vpmap).1 ≠
        ErrorCode.OK →
      (parameterize sqrt mesh borderParam solveOracle ccfaces ccvertices uvmap vimap vpmap).2 =
        (borderParam uvmap vpmap).uv) ∧
    ((parameterize sqrt mesh borderParam solveOracle ccfaces ccvertices uvmap vimap vpmap).1 =
        ErrorCode.OK →
      ∃ vals, solveOracle ((assembleAll sqrt mesh vimap
          (systemBeforeAssembly mesh (borderParam uvmap vpmap).uv vimap
            (borderParam uvmap vpmap).pinned) ccfaces).1.end_system) = some vals ∧
        (parameterize sqrt mesh borderParam solveOracle ccfaces ccvertices uvmap vimap vpmap).2 =
          writeBackUV (borderParam uvmap vpmap).uv vimap vals ccvertices) := by
  have hasm := assembleAll_ok sqrt mesh vimap ccfaces
    (systemBeforeAssembly mesh (borderParam uvmap vpmap).uv vimap
      (borderParam uvmap vpmap).pinned)
  by_cases hb : (borderParam uvmap vpmap).status = ErrorCode.OK
  · cases hsol : solveOracle ((assembleAll sqrt mesh vimap
        (systemBeforeAssembly mesh (borderParam uvmap vpmap).uv vimap
          (borderParam uvmap vpmap).pinned) ccfaces).1.end_system) with
    | none =>
      have hpar : parameterize sqrt mesh borderParam solveOracle ccfaces ccvertices
          uvmap vimap vpmap =
          (ErrorCode.ERROR_CANNOT_SOLVE_LINEAR_SYSTEM, (borderParam uvmap vpmap).uv) := by
        simp [parameterize, hb, hasm, hsol]
      refine ⟨fun h => absurd hb h, fun _ _ => hpar, fun _ => by rw [hpar], fun h => ?_⟩
      rw [hpar] at h
      simp at h
    | some vals =>
      have hpar : parameterize sqrt mesh borderParam solveOracle ccfaces ccvertices
          uvmap vimap vpmap =
          (ErrorCode.OK, writeBackUV (borderParam uvmap vpmap).uv vimap vals ccvertices) := by
        simp [parameterize, hb, hasm, hsol]
      refine ⟨fun h => absurd hb h, fun _ hn => by simp at hn,
        fun h => by rw [hpar] at h; simp at h, fun _ => ⟨vals, rfl, by rw [hpar]⟩⟩
  · have hpar : parameterize sqrt mesh borderParam solveOracle ccfaces ccvertices
        uvmap vimap vpmap =
        ((borderParam uvmap vpmap).status, (borderParam uvmap vpmap).uv) := by
      simp [parameterize, hb]
    refine ⟨fun _ => hpar, fun h => absurd h hb, fun _ => by rw [hpar], fun h => ?_⟩
    rw [hpar] at h
    exact absurd h hb

/-- Claim C4: on the successful path (border parameterization succeeded and
`solve()` returned the solved values), `parameterize` overwrites the UV
map entry of every vertex of the enumerated connected component with the
solved pair `(value(2·index), value(2·index+1))`, and leaves the UV map
entry of every vertex outside that component exactly as the border stage
left it. -/
theorem parameterize_writeback_spec (sqrt : ℚ → ℚ) (mesh : MeshModel)
    (borderParam : (ℕ → Pt2) → (ℕ → Bool) → BorderOutcome)
    (solveOracle : Solver → Option (ℕ → ℚ))
    (ccfaces : List ℕ) (ccvertices : List ℕ)
    (uvmap : ℕ → Pt2) (vimap : ℕ → ℕ) (vpmap : ℕ → Bool)
    (hb : (borderParam uvmap vpmap).status = ErrorCode.OK) (vals : ℕ → ℚ)
    (hsol : solveOracle ((assembleAll sqrt mesh vimap
        (systemBeforeAssembly mesh (borderParam uvmap vpmap).uv vimap
          (borderParam uvmap vpmap).pinned) ccfaces).1.end_system) = some vals) :
    (parameterize sqrt mesh borderParam solveOracle ccfaces ccvertices uvmap vimap vpmap).1 =
      ErrorCode.OK ∧
    (∀ v ∈ ccvertices,
      (parameterize sqrt mesh borderParam solveOracle ccfaces ccvertices uvmap vimap vpmap).2 v =
        ⟨vals (2 * vimap v), vals (2 * vimap v + 1)⟩) ∧
    (∀ v, v ∉ ccvertices →
      (parameterize sqrt mesh borderParam solveOracle ccfaces ccvertices uvmap vimap vpmap).2 v =
        (borderParam uvmap vpmap).uv v) := by
  have hasm := assembleAll_ok sqrt mesh vimap ccfaces
    (systemBeforeAssembly mesh (borderParam uvmap vpmap).uv vimap
      (borderParam uvmap vpmap).pinned)
  have hpar : parameterize sqrt mesh borderParam solveOracle ccfaces ccvertices
      uvmap vimap vpmap =
      (ErrorCode.OK, writeBackUV (borderParam uvmap vpmap).uv vimap vals ccvertices) := by
    simp [parameterize, hb, hasm, hsol]
  rw [hpar]
  exact ⟨rfl,
    fun v hv => writeBackUV_mem (borderParam uvmap vpmap).uv vimap vals ccvertices v hv,
    fun v hv => writeBackUV_not_mem (borderParam uvmap vpmap).uv vimap vals ccvertices v hv⟩

/-- Claim C9: the free function `parameterize` hands the parameterizer a
pinned-flag map backed by an initially empty set, so at the moment the
orchestrator is invoked every vertex's pinned flag reads false; the call
is literally the orchestrator applied to the all-false pinned map (so any
pinning observable inside the call is performed by the border strategy
during that same call, the only transformer of the pinned map in the
orchestrator). -/
theorem free_parameterize_pinmap (sqrt : ℚ → ℚ) (mesh : MeshModel)
    (borderParam : (ℕ → Pt2) → (ℕ → Bool) → BorderOutcome)
    (solveOracle : Solver → Option (ℕ → ℚ))
    (ccFaceVerts : List (List ℕ)) (ccfaces : List ℕ) (ccvertices : List ℕ)
    (uvm : ℕ → Pt2) :
    (∀ v : ℕ, bpm_get [] v = false) ∧
    free_parameterize sqrt mesh borderParam solveOracle ccFaceVerts ccfaces ccvertices uvm =
      parameterize sqrt mesh borderParam solveOracle ccfaces ccvertices uvm
        (fun v => ((buildIndices ccFaceVerts).map v).getD 0) (fun _ => false) :=
  ⟨fun _ => rfl, rfl⟩

/-- A vertex is absent from a list exactly when its first-occurrence
position is `none`. -/
lemma posIn_eq_none {L : List ℕ} {v : ℕ} : posIn L v = none ↔ v ∉ L := by
  induction L with
  | nil => simp [posIn]
  | cons a l ih =>
    by_cases hva : v = a
    · subst hva; simp [posIn]
    · simp [posIn, hva, ih, Option.map_eq_none']

/-- First-occurrence positions ignore anything appended after a list that
already contains the vertex. -/
lemma posIn_append_left {L : List ℕ} {v : ℕ} (h : v ∈ L) (Q : List ℕ) :
    posIn (L ++ Q) v = posIn L v := by
  induction L with
  | nil => cases h
  | cons a l ih =>
    by_cases hva : v = a
    · subst hva; simp [posIn]
    · have hl : v ∈ l := by
        rcases List.mem_cons.mp h with h1 | h1
        · exact absurd h1 hva
        · exact h1
      simp [posIn, hva, ih hl]

/-- Appending a fresh vertex puts its first occurrence at the old length. -/
lemma posIn_snoc_self {P : List ℕ} {w : ℕ} (h : w ∉ P) :
    posIn (P ++ [w]) w = some P.length := by
  induction P with
  | nil => simp [posIn]
  | cons a l ih =>
    simp only [List.mem_cons, not_or] at h
    simp [posIn, h.1, ih h.2]

/-- Appending a different vertex does not move a first occurrence. -/
lemma posIn_snoc_other {P : List ℕ} {w v : ℕ} (hv : v ≠ w) :
    posIn (P ++ [w]) v = posIn P v := by
  by_cases hvP : v ∈ P
  · exact posIn_append_left hvP [w]
  · rw [posIn_eq_none.mpr hvP, posIn_eq_none]
    simp [hvP, hv]

/-- A first-occurrence position is a position in the list. -/
lemma posIn_lt_length {L : List ℕ} {v i : ℕ} (h : posIn L v = some i) :
    i < L.length := by
  induction L generalizing i with
  | nil => cases h
  | cons a l ih =>
    simp only [List.length_cons]
    by_cases hva : v = a
    · subst hva
      simp [posIn] at h
      omega
    · simp only [posIn, if_neg hva, Option.map_eq_some'] at h
      obtain ⟨j, hj, rfl⟩ := h
      have := ih hj
      omega

/-- The entry at a first-occurrence position is the vertex itself. -/
lemma posIn_get {L : List ℕ} {v i : ℕ} (h : posIn L v = some i) :
    L.get? i = some v := by
  induction L generalizing i with
  | nil => cases h
  | cons a l ih =>
    by_cases hva : v = a
    · subst hva
      simp [posIn] at h
      obtain rfl : i = 0 := by omega
      rfl
    · simp only [posIn, if_neg hva, Option.map_eq_some'] at h
      obtain ⟨j, hj, rfl⟩ := h
      simpa using ih hj

/-- On a duplicate-free list, the element at any position has that position
as its first occurrence. -/
lemma posIn_get_self {L : List ℕ} (hnd : L.Nodup) (i : ℕ) (h : i < L.length) :
    posIn L (L.get ⟨i, h⟩) = some i := by
  induction L generalizing i with
  | nil => cases h
  | cons a l ih =>
    rcases List.nodup_cons.mp hnd with ⟨ha, hl⟩
    cases i with
    | zero => simp [posIn]
    | succ j =>
      have hj : j < l.length := by simpa using h
      have hgetc : (a :: l).get ⟨j + 1, h⟩ = l.get ⟨j, hj⟩ := rfl
      rw [hgetc]
      have hne : l.get ⟨j, hj⟩ ≠ a := fun hc => ha (hc ▸ l.get_mem j hj)
      show (if l.get ⟨j, hj⟩ = a then some 0
        else (posIn l (l.get ⟨j, hj⟩)).map (· + 1)) = some (j + 1)
      rw [if_neg hne, ih hl j hj]
      rfl

/-- Collecting first encounters preserves duplicate-freeness. -/
lemma firstSeenFrom_nodup (L : List ℕ) : ∀ P : List ℕ, P.Nodup →
    (firstSeenFrom P L).Nodup := by
  induction L with
  | nil => exact fun P h => h
  | cons w L ih =>
    intro P hP
    rw [firstSeenFrom, List.foldl_cons]
    by_cases hw : w ∈ P
    · rw [if_pos hw]; exact ih P hP
    · rw [if_neg hw]
      refine ih (P ++ [w]) ?_
      simp [List.nodup_append, hP, hw]

/-- A vertex step on a state already containing the vertex is a no-op, and
on a fresh vertex extends the representation by one first encounter. -/
lemma vertStep_repr (P : List ℕ) (w : ℕ) :
    vertStep ⟨fun v => posIn P v, P.length⟩ w =
      ⟨fun v => posIn (if w ∈ P then P else P ++ [w]) v,
       (if w ∈ P then P else P ++ [w]).length⟩ := by
  by_cases hw : w ∈ P
  · simp only [if_pos hw]
    obtain ⟨i, hi⟩ : ∃ i, posIn P w = some i := by
      rcases ho : posIn P w with _ | i
      · exact absurd (posIn_eq_none.mp ho) (by simpa using hw)
      · exact ⟨i, rfl⟩
    simp [vertStep, hi]
  · simp only [if_neg hw]
    have hn : posIn P w = none := posIn_eq_none.mpr hw
    simp only [vertStep, hn]
    have hfun : (fun v => if v = w then some P.length else posIn P v) =
        (fun v => posIn (P ++ [w]) v) := by
      funext v
      by_cases hv : v = w
      · subst hv; rw [if_pos rfl, posIn_snoc_self hw]
      · rw [if_neg hv, posIn_snoc_other hv]
    rw [hfun]
    simp

/-- The vertex-stream fold is represented by the first-encounter list: the
map holds each vertex's first-encounter position and the counter holds
the number of distinct vertices collected so far. -/
lemma vertFold_repr (L : List ℕ) : ∀ P : List ℕ,
    L.foldl vertStep ⟨fun v => posIn P v, P.length⟩ =
      ⟨fun v => posIn (firstSeenFrom P L) v, (firstSeenFrom P L).length⟩ := by
  induction L with
  | nil => exact fun P => rfl
  | cons w L ih =>
    intro P
    rw [List.foldl_cons, vertStep_repr P w, firstSeenFrom, List.foldl_cons]
    exact ih (if w ∈ P then P else P ++ [w])

/-- A vertex already assigned an index is never reassigned by a later step. -/
lemma vertStep_preserves {s : VertState} {v i : ℕ} (h : s.map v = some i) (w : ℕ) :
    (vertStep s w).map v = some i := by
  rcases hm : s.map w with _ | j
  · rw [vertStep, hm]
    by_cases hv : v = w
    · subst hv; rw [h] at hm; cases hm
    · simpa [hv] using h
  · rw [vertStep, hm]
    exact h

/-- A vertex already assigned an index is never reassigned by the rest of a
face, nor by any further faces. -/
lemma vertRun_preserves (fs : List (List ℕ)) : ∀ (s : VertState) (v i : ℕ),
    s.map v = some i → (vertRun s fs).map v = some i := by
  have hface : ∀ (vl : List ℕ) (s : VertState) (v i : ℕ),
      s.map v = some i → (vertFace s vl).map v = some i := by
    intro vl
    induction vl with
    | nil => exact fun s v i h => h
    | cons w vl ih =>
      intro s v i h
      rw [vertFace, List.foldl_cons]
      exact ih _ v i (vertStep_preserves h w)
  induction fs with
  | nil => exact fun s v i h => h
  | cons vl fs ih =>
    intro s v i h
    rw [vertRun, List.foldl_cons]
    exact ih _ v i (hface vl s v i h)

/-- Feeding the faces one by one is the same as folding the flattened vertex
stream. -/
lemma vertRun_eq_join (fs : List (List ℕ)) : ∀ s : VertState,
    vertRun s fs = fs.flatten.foldl vertStep s := by
  induction fs with
  | nil => exact fun s => rfl
  | cons vl fs ih =>
    intro s
    show List.foldl vertFace (vertFace s vl) fs = List.foldl vertStep s (vl ++ fs.flatten)
    rw [List.foldl_append]
    exact ih (vertFace s vl)

/-- Claim C10: the vertex index map built by the free function `parameterize`
assigns each vertex fed by the component traversal exactly one integer —
the position of its first encounter among the distinct vertices of the
traversal — the counter ends at the number of distinct vertices, the
assignment is injective with range `[0, k)`, and a vertex already in the
map is never reassigned. -/
theorem vertex_index_map_spec (faces : List (List ℕ)) :
    (∀ v, (buildIndices faces).map v = posIn (firstSeenFrom [] faces.flatten) v) ∧
    (buildIndices faces).index = (firstSeenFrom [] faces.flatten).length ∧
    (∀ v w i, (buildIndices faces).map v = some i →
      (buildIndices faces).map w = some i → v = w) ∧
    (∀ v i, (buildIndices faces).map v = some i → i < (buildIndices faces).index) ∧
    (∀ i, i < (buildIndices faces).index → ∃ v, (buildIndices faces).map v = some i) ∧
    (∀ (s : VertState) (fs : List (List ℕ)) (v i : ℕ),
      s.map v = some i → (vertRun s fs).map v = some i) := by
  have hrepr : buildIndices faces =
      ⟨fun v => posIn (firstSeenFrom [] faces.flatten) v,
       (firstSeenFrom [] faces.flatten).length⟩ := by
    rw [buildIndices, vertRun_eq_join]
    exact vertFold_repr faces.flatten []
  refine ⟨fun v => by rw [hrepr], by rw [hrepr], ?_, ?_, ?_,
    fun s fs v i h => vertRun_preserves fs s v i h⟩
  · intro v w i hv hw
    rw [hrepr] at hv hw
    have hv2 := posIn_get hv
    have hw2 := posIn_get hw
    rw [hv2] at hw2
    exact Option.some.inj hw2
  · intro v i h
    rw [hrepr] at h ⊢
    exact posIn_lt_length h
  · intro i h
    rw [hrepr] at h ⊢
    refine ⟨(firstSeenFrom [] faces.flatten).get ⟨i, h⟩, ?_⟩
    exact posIn_get_self (firstSeenFrom_nodup faces.flatten [] List.nodup_nil) i h

/-- A one-vertex, faceless mesh used to instantiate the orchestrator. -/
def wMesh1 : MeshModel := ⟨1, [0], fun _ => 0, fun _ => 0, fun _ => 0, fun _ => ⟨0, 0, 0⟩⟩

/-- A two-vertex mesh used to instantiate the initializer. -/
def wMesh2 : MeshModel := ⟨2, [0, 1], fun _ => 0, fun _ => 0, fun _ => 0, fun _ => ⟨0, 0, 0⟩⟩

/-- Witness for C2 at the identity square-root routine and the unit right
triangle: the projection equals the spec's formula there. -/
theorem project_triangle_spec_witness :
    project_triangle (fun q => q) ⟨0, 0, 0⟩ ⟨1, 0, 0⟩ ⟨0, 1, 0⟩ =
      (⟨0, 0⟩, ⟨norm3 (fun q => q) (sub3 ⟨1, 0, 0⟩ ⟨0, 0, 0⟩), 0⟩,
       ⟨dot3 (sub3 ⟨0, 1, 0⟩ ⟨0, 0, 0⟩) (specX (fun q => q) ⟨0, 0, 0⟩ ⟨1, 0, 0⟩),
        dot3 (sub3 ⟨0, 1, 0⟩ ⟨0, 0, 0⟩) (specY (fun q => q) ⟨0, 0, 0⟩ ⟨1, 0, 0⟩ ⟨0, 1, 0⟩)⟩) :=
  (project_triangle_spec (fun q => q) (fun _ _ => Iff.rfl) ⟨0, 0, 0⟩ ⟨1, 0, 0⟩ ⟨0, 1, 0⟩).1

/-- Witness for C4 at a concrete successful run: border strategy succeeds,
the solver returns the zero solution, and the single component vertex
receives the solved pair while other vertices keep their border UV. -/
theorem parameterize_writeback_witness :
    (parameterize (fun q => q) wMesh1 (fun uv vp => ⟨ErrorCode.OK, uv, vp⟩)
        (fun _ => some (fun _ => 0)) [] [0] (fun _ => ⟨0, 0⟩) (fun _ => 0)
        (fun _ => false)).1 = ErrorCode.OK ∧
    (∀ v ∈ ([0] : List ℕ),
      (parameterize (fun q => q) wMesh1 (fun uv vp => ⟨ErrorCode.OK, uv, vp⟩)
          (fun _ => some (fun _ => 0)) [] [0] (fun _ => ⟨0, 0⟩) (fun _ => 0)
          (fun _ => false)).2 v = ⟨0, 0⟩) ∧
    (∀ v : ℕ, v ∉ ([0] : List ℕ) →
      (parameterize (fun q => q) wMesh1 (fun uv vp => ⟨ErrorCode.OK, uv, vp⟩)
          (fun _ => some (fun _ => 0)) [] [0] (fun _ => ⟨0, 0⟩) (fun _ => 0)
          (fun _ => false)).2 v = ⟨0, 0⟩) :=
  parameterize_writeback_spec (fun q => q) wMesh1 (fun uv vp => ⟨ErrorCode.OK, uv, vp⟩)
    (fun _ => some (fun _ => 0)) [] [0] (fun _ => ⟨0, 0⟩) (fun _ => 0) (fun _ => false)
    rfl (fun _ => 0) rfl

/-- Witness for C5 at a concrete two-vertex mesh with the identity index map,
vertex 0 pinned and vertex 1 free: vertex 0's slots hold its UV and are
locked. -/
theorem initialize_system_border_witness :
    ((initialize_system_from_mesh_border (solverAllocated wMesh2) wMesh2
        (fun _ => ⟨1, 2⟩) (fun v => v) (fun v => decide (v = 0))).vars 0).value = 1 ∧
    ((initialize_system_from_mesh_border (solverAllocated wMesh2) wMesh2
        (fun _ => ⟨1, 2⟩) (fun v => v) (fun v => decide (v = 0))).vars 1).value = 2 ∧
    ((initialize_system_from_mesh_border (solverAllocated wMesh2) wMesh2
        (fun _ => ⟨1, 2⟩) (fun v => v) (fun v => decide (v = 0))).vars 0).locked = true ∧
    ((initialize_system_from_mesh_border (solverAllocated wMesh2) wMesh2
        (fun _ => ⟨1, 2⟩) (fun v => v) (fun v => decide (v = 0))).vars 1).locked = true :=
  initialize_system_border_spec wMesh2 (fun _ => ⟨1, 2⟩) (fun v => v)
    (fun v => decide (v = 0)) (by decide) 0 (by decide)

end LSCM
